import Mathlib

/- Shallow embedding of the offer aggregation pipeline of src/server.js:
   client IP resolution, deduplication of offers by offerid with boosted
   priority, ranking by priority category and payout, limiting by the max
   query parameter, and the response mapping of the handler. -/

/-- Strings are modelled as lists of characters so that every operation is
structurally recursive and kernel-computable. -/
abbrev Str : Type := List Char

/-- Payout field of an offer as it arrives from upstream: absent (or any
other falsy value such as the empty string or the number 0), a value whose
numeric parse succeeds with value q, or a truthy value whose numeric parse
fails (parseFloat yields NaN). -/
inductive PayoutField where
  | missing : PayoutField
  | num : ℚ → PayoutField
  | invalid : PayoutField
deriving DecidableEq

/-- An upstream offer. `payload` stands for all remaining opaque fields. -/
structure Offer where
  offerid : Nat
  ctype : Nat
  payout : PayoutField
  boosted : Bool
  payload : Nat
deriving DecidableEq

/-- One step of the uniqueMap update in rawOffers.forEach: a fresh offerid is
appended at the end (Map insertion order); an existing entry is replaced in
place exactly when the incoming offer is boosted and the stored one is not. -/
def dedupInsert (o : Offer) : List Offer → List Offer
  | [] => [o]
  | x :: xs =>
    if x.offerid = o.offerid then
      (if o.boosted && !x.boosted then o else x) :: xs
    else
      x :: dedupInsert o xs

/-- Deduplication: left fold of dedupInsert over the raw offers, mirroring
the insertion-ordered uniqueMap built by rawOffers.forEach. -/
def dedup (l : List Offer) : List Offer :=
  l.foldl (fun m o => dedupInsert o m) []

/-- (a.ctype & 1) || (a.ctype & 2): the offer belongs to the CPI or CPA
category. -/
def isPriority (o : Offer) : Bool :=
  decide (o.ctype &&& 1 ≠ 0) || decide (o.ctype &&& 2 ≠ 0)

/-- parseFloat(a.payout || 0): a falsy payout parses to 0, a parsable value
to its number, and a truthy unparsable value to NaN (modelled as none). -/
def payoutNum (o : Offer) : Option ℚ :=
  match o.payout with
  | .missing => some 0
  | .num q => some q
  | .invalid => none

/-- The sort comparator of dedupedOffers.sort as a "may come before"
relation: offerLe a b holds when comparator(a, b) ≤ 0. Array.prototype.sort
treats a NaN comparator result as 0, so any comparison that reaches an
unparsable payout is a tie. -/
def offerLe (a b : Offer) : Bool :=
  if isPriority a && !isPriority b then true
  else if !isPriority a && isPriority b then false
  else
    match payoutNum a, payoutNum b with
    | some x, some y => decide (y ≤ x)
    | _, _ => true

/-- Stable insertion of an offer in front of the first element it may
precede. -/
def rankInsert (o : Offer) : List Offer → List Offer
  | [] => [o]
  | x :: xs => if offerLe o x then o :: x :: xs else x :: rankInsert o xs

/-- dedupedOffers.sort(comparator): modelled as a stable comparison sort by
offerLe, which is the stable sorted order mandated for a consistent
comparator. -/
def rankSort (l : List Offer) : List Offer :=
  l.foldr rankInsert []

/-- Whitespace recognised when parseInt skips leading space. -/
def isWs (c : Char) : Bool := c = ' ' || c = '\t' || c = '\n' || c = '\r'

/-- Value of a string of decimal digits. -/
def digitsToNat (l : List Char) : Nat :=
  l.foldl (fun n c => n * 10 + (c.toNat - 48)) 0

/-- parseInt(s) restricted to its base-10 path: skip leading whitespace,
read an optional sign, then the longest prefix of decimal digits; NaN
(modelled as none) when that prefix is empty. Radix prefixes such as 0x are
not modelled; no claim involves them. -/
def parseIntJS (s : Str) : Option Int :=
  let t := s.dropWhile isWs
  let signRest : Int × Str :=
    match t with
    | '-' :: r => (-1, r)
    | '+' :: r => (1, r)
    | r => (1, r)
  let ds := signRest.2.takeWhile Char.isDigit
  if ds.isEmpty then none else some (signRest.1 * digitsToNat ds)

/-- parseInt(max) || 5: an absent parameter, a NaN parse, or the (falsy)
value 0 all yield the default limit 5. -/
def userLimit (maxQ : Option Str) : Int :=
  match maxQ with
  | none => 5
  | some s =>
    match parseIntJS s with
    | none => 5
    | some k => if k = 0 then 5 else k

/-- Array.prototype.slice(0, n): a negative end counts back from the end of
the array. -/
def sliceJS (l : List Offer) (n : Int) : List Offer :=
  if n < 0 then l.take (l.length - (-n).toNat) else l.take n.toNat

/-- The ranked pool truncated to the user limit: dedupedOffers sorted,
then sliced to userLimit. -/
def finalOffers (pool : List Offer) (maxQ : Option Str) : List Offer :=
  sliceJS (rankSort pool) (userLimit maxQ)

/- ------------------------------------------------------------------ -/
/- Client IP resolution (lines 31-53 of src/server.js).                -/
/- ------------------------------------------------------------------ -/

/-- JS truthiness of a possibly-absent string: undefined/null and the empty
string are falsy. -/
def strTruthy : Option Str → Bool
  | none => false
  | some s => !s.isEmpty

/-- forwarded.split(",")[0]: the characters before the first comma. -/
def firstComma (s : Str) : Str :=
  s.takeWhile (fun c => c ≠ ',')

/-- String.prototype.trim: drop whitespace at both ends. -/
def trimStr (s : Str) : Str :=
  ((s.dropWhile isWs).reverse.dropWhile isWs).reverse

/-- The IPv4-mapped IPv6 marker "::ffff:". -/
def ffffPat : Str := "::ffff:".toList

/-- clientIp.replace("::ffff:", ""): remove the FIRST occurrence of the
marker, wherever it occurs (String.prototype.replace with a string pattern
replaces only the first occurrence; when the marker is absent the string is
unchanged, which also covers the includes guard in the source). -/
def removeFirstFfff : Str → Str
  | [] => []
  | c :: r =>
    if ffffPat.isPrefixOf (c :: r) then (c :: r).drop 7
    else c :: removeFirstFfff r

def loopback6 : Str := "::1".toList
def loopback4 : Str := "127.0.0.1".toList

/-- The fixed fallback public IP constant of the source. -/
def fallbackIp : Str := "64.233.160.0".toList

/-- Final guard of the resolution: if (!clientIp || clientIp === loopback)
substitute the fallback constant. -/
def finishIp : Option Str → Str
  | none => fallbackIp
  | some s =>
    if s.isEmpty || s = loopback6 || s = loopback4 then fallbackIp else s

/-- Client IP resolution: header first (first comma entry, trimmed), falling
through to query ip || connection address when the header is absent or the
derived value is empty; then the "::ffff:" removal; then the fallback
substitution for an unusable or loopback result. -/
def resolveIp (forwarded queryIp remoteAddr : Option Str) : Str :=
  let fromHeader : Option Str :=
    if strTruthy forwarded then some (trimStr (firstComma (forwarded.getD [])))
    else none
  let clientIp : Option Str :=
    if strTruthy fromHeader then fromHeader
    else if strTruthy queryIp then queryIp
    else remoteAddr
  finishIp (clientIp.map removeFirstFfff)

/-- Modelled from the words of the claim (C6), for comparison with
resolveIp: the header, whenever present, decides the candidate; the query
ip, whenever present, is used otherwise; the "::ffff:" marker is stripped
only as a prefix; the fallback replaces an empty or loopback result. -/
def resolveIpClaim (forwarded queryIp remoteAddr : Option Str) : Str :=
  let cand : Str :=
    match forwarded with
    | some f => trimStr (firstComma f)
    | none =>
      match queryIp with
      | some q => q
      | none => remoteAddr.getD []
  let c2 : Str := if ffffPat.isPrefixOf cand then cand.drop 7 else cand
  if c2.isEmpty || c2 = loopback6 || c2 = loopback4 then fallbackIp else c2

/-- Candidate selection per the amended claim: the query ip when present and
non-empty, otherwise the connection address (empty when absent). -/
def fallbackCand (queryIp remoteAddr : Option Str) : Str :=
  match queryIp with
  | some s => if s.isEmpty then remoteAddr.getD [] else s
  | none => remoteAddr.getD []

/-- The amended claim (C6) as its own definition: the first trimmed
comma entry decides only when it is non-empty, otherwise resolution falls
through to the query ip (when present and non-empty) and then the
connection address; the first occurrence of "::ffff:" is removed; the
fallback constant replaces an empty or loopback result. -/
def resolveIpAmendedSpec (forwarded queryIp remoteAddr : Option Str) : Str :=
  let cand : Str :=
    match forwarded with
    | some f =>
      if f.isEmpty = false ∧ (trimStr (firstComma f)).isEmpty = false then
        trimStr (firstComma f)
      else fallbackCand queryIp remoteAddr
    | none => fallbackCand queryIp remoteAddr
  let c2 : Str := removeFirstFfff cand
  if c2.isEmpty || c2 = loopback6 || c2 = loopback4 then fallbackIp else c2

/- ------------------------------------------------------------------ -/
/- Response body processing and error mapping (lines 81-148).          -/
/- ------------------------------------------------------------------ -/

/-- Parsed upstream body: the offers field (none when absent or falsy, some
list when it is an offers array, possibly empty) and the remaining opaque
top-level fields. -/
structure Body where
  offersField : Option (List Offer)
  extra : List (Str × Str)
deriving DecidableEq

/-- The success path: when the offers list is missing the body is returned
unmodified; otherwise the offers field is replaced by the deduplicated,
ranked and limited pool, all other fields spread through unchanged. -/
def processBody (b : Body) (maxQ : Option Str) : Body :=
  match b.offersField with
  | none => b
  | some raw => { b with offersField := some (finalOffers (dedup raw) maxQ) }

/-- An error caught by the handler: its message and stack, and the upstream
response (status and body payload) when the error came from an HTTP error
reply. -/
structure CaughtError where
  message : Str
  stack : Str
  response : Option (Nat × Str)

/-- Outcome of the awaited upstream call as seen by the handler: a parsed
body (none models a falsy response.data), or a raised error. -/
inductive FetchOutcome where
  | success (data : Option Body)
  | failure (e : CaughtError)

/-- A serialized handler reply body. -/
inductive RespBody where
  | payload (d : Option Body)
  | errPayload (s : Str)
  | errorEnvelope (success : Bool) (msg : Str)
deriving DecidableEq

def internalErrorMsg : Str := "Internal Server Error".toList

/-- Response mapping of the handler: status code and body for each outcome.
A missing offers list short-circuits to res.json(response.data); an error
with an upstream response passes its status and data through; any other
error yields 500 with the fixed envelope. -/
def handle (o : FetchOutcome) (maxQ : Option Str) : Nat × RespBody :=
  match o with
  | .success none => (200, .payload none)
  | .success (some b) => (200, .payload (some (processBody b maxQ)))
  | .failure e =>
    match e.response with
    | some sb => (sb.1, .errPayload sb.2)
    | none => (500, .errorEnvelope false internalErrorMsg)

/- ------------------------------------------------------------------ -/
/- Specification-side vocabulary for the deduplication claims.         -/
/- ------------------------------------------------------------------ -/

/-- First entry with the given offerid. -/
def findById (i : Nat) : List Offer → Option Offer
  | [] => none
  | x :: xs => if x.offerid = i then some x else findById i xs

/-- First boosted entry with the given offerid. -/
def firstBoosted (i : Nat) : List Offer → Option Offer
  | [] => none
  | x :: xs =>
    if x.offerid = i ∧ x.boosted = true then some x else firstBoosted i xs

/-- The survivor the spec prescribes for an offerid: the first boosted offer
carrying it when one exists, otherwise the first offer carrying it. -/
def surv (i : Nat) (l : List Offer) : Option Offer :=
  match firstBoosted i l with
  | some o => some o
  | none => findById i l

/-- Accumulate a value keeping only first occurrences. -/
def occStep (acc : List Nat) (x : Nat) : List Nat :=
  if x ∈ acc then acc else acc ++ [x]

/-- The identifiers of a list in first-seen order, each kept once. -/
def firstOccur (l : List Nat) : List Nat :=
  l.foldl occStep []

/-- Effect of one dedupInsert on the stored entry for an offerid. -/
def survStep (cur : Option Offer) (o : Offer) (i : Nat) : Option Offer :=
  if o.offerid = i then
    match cur with
    | none => some o
    | some x => some (if o.boosted && !x.boosted then o else x)
  else cur

/-- The payout value the claim prescribes: the parsed number, with a missing
or invalid payout treated as 0. -/
def payoutClaim (o : Offer) : ℚ := (payoutNum o).getD 0

/-- The Variant A order of the claim: a priority offer never follows a
non-priority one, and within a group the payout (missing or invalid treated
as 0) is non-increasing. -/
def claimOrder (a b : Offer) : Prop :=
  (isPriority b = true → isPriority a = true) ∧
  (isPriority a = isPriority b → payoutClaim b ≤ payoutClaim a)

instance : DecidableRel claimOrder := fun a b => by
  unfold claimOrder
  infer_instance

/- ------------------------------------------------------------------ -/
/- Sample data for witnesses and counterexamples.                      -/
/- ------------------------------------------------------------------ -/

/-- A priority offer with payout 5. -/
def oNumFive : Offer := ⟨2, 1, PayoutField.num 5, false, 0⟩

/-- A priority offer with payout 3. -/
def oNumThree : Offer := ⟨1, 2, PayoutField.num 3, false, 0⟩

/-- A priority offer whose payout does not parse to a number. -/
def oInvalidPay : Offer := ⟨3, 1, PayoutField.invalid, false, 0⟩

/-- An upstream body without an offers list. -/
def bodyNoOffers : Body := ⟨none, [("status".toList, "ok".toList)]⟩

/-- An upstream body with an offers list and one extra field. -/
def bodyWithOffers : Body :=
  ⟨some [oNumFive, oNumThree], [("status".toList, "ok".toList)]⟩

/-- An error whose upstream response is present. -/
def errWithResp : CaughtError :=
  ⟨"boom".toList, "trace".toList, some (502, "bad gateway".toList)⟩

/-- An error with no upstream response attached. -/
def errNoResp : CaughtError := ⟨"boom".toList, "secret trace".toList, none⟩

lemma findById_dedupInsert (i : Nat) (o : Offer) (m : List Offer) :
    findById i (dedupInsert o m) = survStep (findById i m) o i := by
  induction m with
  | nil =>
    by_cases h : o.offerid = i <;> simp [dedupInsert, findById, survStep, h]
  | cons x xs ih =>
    by_cases hxo : x.offerid = o.offerid
    · by_cases hxi : x.offerid = i
      · have hoi : o.offerid = i := hxo ▸ hxi
        by_cases hb : o.boosted && !x.boosted
        · simp [dedupInsert, findById, survStep, hxo, hxi, hoi, hb, hxo.symm.trans hxi]
        · simp [dedupInsert, findById, survStep, hxo, hxi, hoi, hb]
      · have hoi : ¬ o.offerid = i := fun h => hxi (hxo ▸ h)
        by_cases hb : o.boosted && !x.boosted
        · simp [dedupInsert, findById, survStep, hxo, hxi, hoi, hb]
        · simp [dedupInsert, findById, survStep, hxo, hxi, hoi, hb]
    · have hstep : dedupInsert o (x :: xs) = x :: dedupInsert o xs := by
        simp [dedupInsert, hxo]
      by_cases hxi : x.offerid = i
      · have hoi : ¬ o.offerid = i := fun h => hxo ((h.trans hxi.symm).symm)
        rw [hstep]
        simp [findById, survStep, hxi, hoi]
      · rw [hstep]
        simp [findById, survStep, hxi, ih]

lemma findById_foldl_dedup (i : Nat) (l : List Offer) :
    ∀ m : List Offer,
      findById i (l.foldl (fun m o => dedupInsert o m) m)
        = l.foldl (fun c o => survStep c o i) (findById i m) := by
  induction l with
  | nil => intro m; simp
  | cons o l ih =>
    intro m
    simp only [List.foldl_cons]
    rw [ih (dedupInsert o m), findById_dedupInsert]

lemma survFold_some (i : Nat) (l : List Offer) :
    ∀ x : Offer,
      l.foldl (fun c o => survStep c o i) (some x)
        = if x.boosted then some x else
            match firstBoosted i l with
            | some u => some u
            | none => some x := by
  induction l with
  | nil => intro x; cases hb : x.boosted <;> simp [firstBoosted, hb]
  | cons o l ih =>
    intro x
    simp only [List.foldl_cons]
    by_cases ho : o.offerid = i
    · cases hx : x.boosted with
      | true =>
        have : survStep (some x) o i = some x := by
          simp [survStep, ho, hx]
        rw [this, ih x, hx]
        simp
      | false =>
        cases hob : o.boosted with
        | true =>
          have : survStep (some x) o i = some o := by
            simp [survStep, ho, hx, hob]
          rw [this, ih o, hob]
          simp [firstBoosted, ho, hob]
        | false =>
          have : survStep (some x) o i = some x := by
            simp [survStep, ho, hx, hob]
          rw [this, ih x, hx]
          simp [firstBoosted, ho, hob]
    · have : survStep (some x) o i = some x := by simp [survStep, ho]
      rw [this, ih x]
      simp [firstBoosted, ho]

lemma survFold_none (i : Nat) (l : List Offer) :
    l.foldl (fun c o => survStep c o i) none = surv i l := by
  induction l with
  | nil => simp [surv, firstBoosted, findById]
  | cons o l ih =>
    simp only [List.foldl_cons]
    by_cases ho : o.offerid = i
    · have : survStep none o i = some o := by simp [survStep, ho]
      rw [this, survFold_some]
      cases hob : o.boosted with
      | true => simp [surv, firstBoosted, ho, hob]
      | false =>
        simp only [surv, firstBoosted, findById, ho, hob]
        cases hfb : firstBoosted i l with
        | none => simp [hfb, ho]
        | some u => simp [hfb]
    · have : survStep none o i = none := by simp [survStep, ho]
      rw [this, ih]
      simp [surv, firstBoosted, findById, ho]

lemma findById_dedup (i : Nat) (l : List Offer) :
    findById i (dedup l) = surv i l := by
  have h := findById_foldl_dedup i l []
  simpa [dedup, findById, survFold_none] using h

lemma ids_dedupInsert (o : Offer) (m : List Offer) :
    (dedupInsert o m).map Offer.offerid
      = occStep (m.map Offer.offerid) o.offerid := by
  induction m with
  | nil => simp [dedupInsert, occStep]
  | cons x xs ih =>
    by_cases hxo : x.offerid = o.offerid
    · by_cases hb : o.boosted && !x.boosted
      · simp [dedupInsert, occStep, hxo, hb, List.mem_cons]
      · simp [dedupInsert, occStep, hxo, hb, List.mem_cons]
    · have hne : ¬ o.offerid = x.offerid := fun h => hxo h.symm
      by_cases hmem : o.offerid ∈ xs.map Offer.offerid
      · simp [dedupInsert, occStep, hxo, hne, hmem, ih]
      · simp [dedupInsert, occStep, hxo, hne, hmem, ih]

lemma ids_foldl_dedup (l : List Offer) :
    ∀ m : List Offer,
      (l.foldl (fun m o => dedupInsert o m) m).map Offer.offerid
        = (l.map Offer.offerid).foldl occStep (m.map Offer.offerid) := by
  induction l with
  | nil => intro m; simp
  | cons o l ih =>
    intro m
    simp only [List.foldl_cons, List.map_cons]
    rw [ih (dedupInsert o m), ids_dedupInsert]

lemma ids_dedup (l : List Offer) :
    (dedup l).map Offer.offerid = firstOccur (l.map Offer.offerid) := by
  have h := ids_foldl_dedup l []
  simpa [dedup, firstOccur] using h

lemma occStep_nodup {acc : List Nat} (x : Nat) (h : acc.Nodup) :
    (occStep acc x).Nodup := by
  by_cases hmem : x ∈ acc
  · simpa [occStep, hmem] using h
  · simp [occStep, hmem, List.nodup_append, h, hmem]

lemma foldl_occStep_nodup (L : List Nat) :
    ∀ acc : List Nat, acc.Nodup → (L.foldl occStep acc).Nodup := by
  induction L with
  | nil => intro acc h; simpa using h
  | cons x L ih =>
    intro acc h
    simpa using ih (occStep acc x) (occStep_nodup x h)

lemma ids_dedup_nodup (l : List Offer) :
    ((dedup l).map Offer.offerid).Nodup := by
  rw [ids_dedup]
  exact foldl_occStep_nodup _ [] List.nodup_nil

lemma dedupInsert_of_not_mem {o : Offer} {m : List Offer}
    (h : o.offerid ∉ m.map Offer.offerid) : dedupInsert o m = m ++ [o] := by
  induction m with
  | nil => simp [dedupInsert]
  | cons x xs ih =>
    simp only [List.map_cons, List.mem_cons, not_or] at h
    have hx : ¬ x.offerid = o.offerid := fun he => h.1 he.symm
    simp [dedupInsert, hx, ih h.2]

lemma foldl_dedup_of_nodup (l : List Offer) :
    ∀ m : List Offer, ((m ++ l).map Offer.offerid).Nodup →
      l.foldl (fun m o => dedupInsert o m) m = m ++ l := by
  induction l with
  | nil => intro m _; simp
  | cons o l ih =>
    intro m h
    have hnot : o.offerid ∉ m.map Offer.offerid := by
      intro hmem
      have hd := (List.nodup_append.mp (by simpa using h)).2.2
      exact hd hmem (by simp)
    rw [List.foldl_cons, dedupInsert_of_not_mem hnot]
    have h2 : (((m ++ [o]) ++ l).map Offer.offerid).Nodup := by
      rw [List.append_assoc]
      simpa using h
    rw [ih (m ++ [o]) h2, List.append_assoc]
    simp

lemma dedup_fix {l : List Offer} (h : (l.map Offer.offerid).Nodup) :
    dedup l = l := by
  have := foldl_dedup_of_nodup l [] (by simpa using h)
  simpa [dedup] using this

/- ------------------------------------------------------------------ -/
/- Ranking: sortedness lemmas for the Variant A order.                 -/
/- ------------------------------------------------------------------ -/

lemma rankInsert_perm (o : Offer) (l : List Offer) :
    (rankInsert o l).Perm (o :: l) := by
  induction l with
  | nil => simp [rankInsert]
  | cons x xs ih =>
    by_cases hle : offerLe o x
    · simp [rankInsert, hle]
    · simp only [rankInsert, hle, Bool.false_eq_true, if_false]
      exact (ih.cons x).trans (List.Perm.swap o x xs)

lemma rankSort_perm (l : List Offer) : (rankSort l).Perm l := by
  induction l with
  | nil => simp [rankSort]
  | cons o l ih =>
    have h : rankSort (o :: l) = rankInsert o (rankSort l) := by
      simp [rankSort]
    rw [h]
    exact (rankInsert_perm o (rankSort l)).trans (ih.cons o)

lemma length_rankSort (l : List Offer) : (rankSort l).length = l.length :=
  (rankSort_perm l).length_eq

lemma offerLe_total {a b : Offer} (h : offerLe a b = false) :
    offerLe b a = true := by
  unfold offerLe at h ⊢
  cases hpa : isPriority a <;> cases hpb : isPriority b <;>
    simp [hpa, hpb] at h ⊢ <;>
    cases hna : payoutNum a <;> cases hnb : payoutNum b <;>
      simp [hna, hnb] at h ⊢
  · exact le_of_lt h
  · exact le_of_lt h

lemma claimOrder_trans {a b c : Offer}
    (h1 : claimOrder a b) (h2 : claimOrder b c) : claimOrder a c := by
  constructor
  · exact fun hc => h1.1 (h2.1 hc)
  · intro hac
    cases hpb : isPriority b with
    | true =>
      have hpa : isPriority a = true := h1.1 hpb
      have hpc : isPriority c = true := hac ▸ hpa
      exact le_trans (h2.2 (hpb.trans hpc.symm)) (h1.2 (hpa.trans hpb.symm))
    | false =>
      have hpc : isPriority c = false := by
        cases hpc : isPriority c with
        | true => exact absurd (h2.1 hpc) (by simp [hpb])
        | false => rfl
      have hpa : isPriority a = false := hac.trans hpc
      exact le_trans (h2.2 (hpb.trans hpc.symm)) (h1.2 (hpa.trans hpb.symm))

lemma payoutNum_of_good {o : Offer} (h : o.payout ≠ PayoutField.invalid) :
    payoutNum o = some (payoutClaim o) := by
  cases hp : o.payout with
  | missing => simp [payoutNum, payoutClaim, hp]
  | num q => simp [payoutNum, payoutClaim, hp]
  | invalid => exact absurd hp h

lemma offerLe_eq_claimOrder {a b : Offer}
    (ha : a.payout ≠ PayoutField.invalid)
    (hb : b.payout ≠ PayoutField.invalid) :
    offerLe a b = true ↔ claimOrder a b := by
  unfold offerLe claimOrder
  rw [payoutNum_of_good ha, payoutNum_of_good hb]
  cases hpa : isPriority a <;> cases hpb : isPriority b <;> simp [hpa, hpb]

lemma mem_rankInsert {x o : Offer} {l : List Offer} :
    x ∈ rankInsert o l ↔ x = o ∨ x ∈ l := by
  rw [(rankInsert_perm o l).mem_iff]
  simp

lemma rankInsert_pairwise {o : Offer} {l : List Offer}
    (hogood : o.payout ≠ PayoutField.invalid)
    (hgood : ∀ x ∈ l, x.payout ≠ PayoutField.invalid)
    (hp : l.Pairwise claimOrder) :
    (rankInsert o l).Pairwise claimOrder := by
  induction l with
  | nil => simp [rankInsert]
  | cons x xs ih =>
    have hxgood : x.payout ≠ PayoutField.invalid := hgood x (by simp)
    by_cases hle : offerLe o x
    · simp only [rankInsert, hle, if_true]
      have hox : claimOrder o x :=
        (offerLe_eq_claimOrder hogood hxgood).mp hle
      refine List.Pairwise.cons ?_ hp
      intro y hy
      rcases List.mem_cons.mp hy with hy | hy
      · exact hy ▸ hox
      · exact claimOrder_trans hox ((List.pairwise_cons.mp hp).1 y hy)
    · simp only [rankInsert, hle, Bool.false_eq_true, if_false]
      have hxo : claimOrder x o :=
        (offerLe_eq_claimOrder hxgood hogood).mp
          (offerLe_total (Bool.eq_false_iff.mpr (by simpa using hle)))
      refine List.Pairwise.cons ?_ ?_
      · intro y hy
        rcases mem_rankInsert.mp hy with hy | hy
        · exact hy ▸ hxo
        · exact (List.pairwise_cons.mp hp).1 y hy
      · exact ih (fun z hz => hgood z (by simp [hz]))
          (List.pairwise_cons.mp hp).2

lemma rankSort_pairwise {l : List Offer}
    (h : ∀ x ∈ l, x.payout ≠ PayoutField.invalid) :
    (rankSort l).Pairwise claimOrder := by
  induction l with
  | nil => simp [rankSort]
  | cons o l ih =>
    have hstep : rankSort (o :: l) = rankInsert o (rankSort l) := by
      simp [rankSort]
    rw [hstep]
    exact rankInsert_pairwise (h o (by simp))
      (fun x hx => h x (by simp [(rankSort_perm l).mem_iff.mp hx]))
      (ih (fun x hx => h x (by simp [hx])))

/- ------------------------------------------------------------------ -/
/- IP resolver lemmas.                                                 -/
/- ------------------------------------------------------------------ -/

lemma finishIp_ne_nil (x : Option Str) : finishIp x ≠ [] := by
  cases x with
  | none => decide
  | some s =>
    by_cases h : s.isEmpty || s = loopback6 || s = loopback4
    · simp only [finishIp, h, if_true]
      decide
    · simp only [finishIp, h, Bool.false_eq_true, if_false]
      intro he
      apply h
      simp [he]

lemma fallback_eq (q r : Option Str) :
    finishIp ((if strTruthy q then q else r).map removeFirstFfff)
      = finishIp (some (removeFirstFfff (fallbackCand q r))) := by
  cases q with
  | none =>
    cases r with
    | none => simp [strTruthy, fallbackCand, finishIp, removeFirstFfff]
    | some t => simp [strTruthy, fallbackCand]
  | some s =>
    by_cases hs : s.isEmpty
    · have hse : s = [] := by simpa using hs
      cases r with
      | none =>
        simp [strTruthy, fallbackCand, hse, finishIp, removeFirstFfff]
      | some t => simp [strTruthy, fallbackCand, hs, hse]
    · simp [strTruthy, fallbackCand, hs]

lemma strTruthy_none : strTruthy none = false := rfl

lemma strTruthy_some (s : Str) : strTruthy (some s) = !s.isEmpty := rfl

lemma resolveIp_eq_amendedSpec (f q r : Option Str) :
    resolveIp f q r = resolveIpAmendedSpec f q r := by
  cases f with
  | none =>
    have hspec : resolveIpAmendedSpec none q r
        = finishIp (some (removeFirstFfff (fallbackCand q r))) := rfl
    have hcode : resolveIp none q r
        = finishIp ((if strTruthy q then q else r).map removeFirstFfff) := rfl
    rw [hspec, hcode]
    exact fallback_eq q r
  | some s =>
    have hspec : resolveIpAmendedSpec (some s) q r
        = finishIp (some (removeFirstFfff (
            if s.isEmpty = false ∧ (trimStr (firstComma s)).isEmpty = false then
              trimStr (firstComma s)
            else fallbackCand q r))) := rfl
    rw [hspec]
    by_cases hs : s.isEmpty
    · have h1 : strTruthy (some s) = false := by
        rw [strTruthy_some, hs, Bool.not_true]
      have hcond : ¬ (s.isEmpty = false ∧ (trimStr (firstComma s)).isEmpty = false) := by
        simp [hs]
      have hcode : resolveIp (some s) q r
          = finishIp ((if strTruthy q then q else r).map removeFirstFfff) := by
        simp only [resolveIp, h1, Bool.false_eq_true, if_false, strTruthy_none]
      rw [hcode, if_neg hcond]
      exact fallback_eq q r
    · have h1 : strTruthy (some s) = true := by
        rw [strTruthy_some, Bool.eq_false_iff.mpr hs, Bool.not_false]
      by_cases ht : (trimStr (firstComma s)).isEmpty
      · have h2 : strTruthy (some (trimStr (firstComma s))) = false := by
          rw [strTruthy_some, ht, Bool.not_true]
        have hcond : ¬ (s.isEmpty = false ∧ (trimStr (firstComma s)).isEmpty = false) := by
          simp [ht]
        have hcode : resolveIp (some s) q r
            = finishIp ((if strTruthy q then q else r).map removeFirstFfff) := by
          simp only [resolveIp, h1, if_true, Option.getD_some, h2,
            Bool.false_eq_true, if_false]
        rw [hcode, if_neg hcond]
        exact fallback_eq q r
      · have h2 : strTruthy (some (trimStr (firstComma s))) = true := by
          rw [strTruthy_some, Bool.eq_false_iff.mpr ht, Bool.not_false]
        have hcond : s.isEmpty = false ∧ (trimStr (firstComma s)).isEmpty = false :=
          ⟨Bool.eq_false_iff.mpr hs, Bool.eq_false_iff.mpr ht⟩
        have hcode : resolveIp (some s) q r
            = finishIp (some (removeFirstFfff (trimStr (firstComma s)))) := by
          simp only [resolveIp, h1, if_true, h2, Option.getD_some]
          rfl
        rw [hcode, if_pos hcond]

lemma resolveIp_ne_nil (f q r : Option Str) : resolveIp f q r ≠ [] := by
  unfold resolveIp
  exact finishIp_ne_nil _

/- ------------------------------------------------------------------ -/
/- Limit lemmas.                                                       -/
/- ------------------------------------------------------------------ -/

lemma userLimit_of_parse {s : Str} {k : Int} (h1 : parseIntJS s = some k)
    (h2 : k ≠ 0) : userLimit (some s) = k := by
  simp [userLimit, h1, h2]

lemma length_finalOffers {pool : List Offer} {s : Str} {k : Int}
    (h1 : parseIntJS s = some k) (h2 : 1 ≤ k) :
    (finalOffers pool (some s)).length = min k.toNat pool.length := by
  have hk : userLimit (some s) = k := userLimit_of_parse h1 (by omega)
  have hneg : ¬ k < 0 := by omega
  simp [finalOffers, sliceJS, hk, hneg, List.length_take, length_rankSort]

lemma finalOffers_all {pool : List Offer} {m : Option Str}
    (h : (pool.length : Int) ≤ userLimit m) :
    finalOffers pool m = rankSort pool := by
  have h0 : (0 : Int) ≤ userLimit m := le_trans (Int.natCast_nonneg _) h
  have hneg : ¬ userLimit m < 0 := not_lt.mpr h0
  have hlen : pool.length ≤ (userLimit m).toNat := by omega
  simp only [finalOffers, sliceJS, hneg, if_false]
  exact List.take_of_length_le (by rw [length_rankSort]; exact hlen)

lemma finalOffers_ne_nil_of_pos {pool : List Offer} {m : Option Str}
    (hpool : pool ≠ []) (hlim : 1 ≤ userLimit m) :
    finalOffers pool m ≠ [] := by
  have hneg : ¬ userLimit m < 0 := by omega
  have h1 : 1 ≤ (userLimit m).toNat := by omega
  intro he
  simp only [finalOffers, sliceJS, hneg, if_false] at he
  rcases List.take_eq_nil_iff.mp he with h | h
  · omega
  · exact hpool (by
      have := length_rankSort pool
      rw [h] at this
      exact List.length_eq_zero.mp this.symm)

/- ------------------------------------------------------------------ -/
/- Claim theorems.                                                     -/
/- ------------------------------------------------------------------ -/

/-- C1: for every input sequence of offers, deduplication returns a sequence
whose offerids are pairwise distinct and listed in first-seen relative
order, and for each offerid the surviving entry is the first boosted offer
carrying it when one exists (so a boosted duplicate wins regardless of
which came first) and otherwise the first-seen offer carrying it. -/
theorem C1_dedup_correct (l : List Offer) :
    ((dedup l).map Offer.offerid).Nodup
    ∧ (dedup l).map Offer.offerid = firstOccur (l.map Offer.offerid)
    ∧ ∀ i : Nat, findById i (dedup l) = surv i l :=
  ⟨ids_dedup_nodup l, ids_dedup l, fun i => findById_dedup i l⟩

/-- C2 counterexample: an offer whose payout does not parse is not ranked as
if its payout were 0. The comparator yields NaN, which the sort treats as a
tie, so the unparsable offer keeps its place ahead of a payout-5 offer of
the same priority group, violating the claimed non-increasing order. -/
theorem C2_rank_counterexample :
    rankSort [oInvalidPay, oNumFive] = [oInvalidPay, oNumFive]
    ∧ ¬ (rankSort [oInvalidPay, oNumFive]).Pairwise claimOrder :=
  ⟨by decide, by decide⟩

/-- C2 (amended): for every deduplicated sequence in which the payout of each offer
is either missing or parses to a number, the ranking produces the
Variant A order — all offers retained, priority offers (ctype bit 0 or 1)
first, each group non-increasing by parsed payout with a missing payout
treated as 0. Offers with a truthy unparsable payout are instead compared
as ties and need not be placed as if their payout were 0. -/
theorem C2_rank_variantA (l : List Offer)
    (h : ∀ o ∈ l, o.payout ≠ PayoutField.invalid) :
    (rankSort l).Perm l ∧ (rankSort l).Pairwise claimOrder :=
  ⟨rankSort_perm l, rankSort_pairwise h⟩

/-- Witness for C2 at a concrete two-offer pool. -/
theorem C2_rank_variantA_witness :
    (rankSort [oNumThree, oNumFive]).Perm [oNumThree, oNumFive]
    ∧ (rankSort [oNumThree, oNumFive]).Pairwise claimOrder :=
  C2_rank_variantA [oNumThree, oNumFive] (by decide)

/-- C3 counterexample: with max = "0" (a non-negative integer value) the
effective limit is the default 5, so a one-offer pool yields one offer in
the response, exceeding min(0, 1) = 0. -/
theorem C3_limit_counterexample :
    parseIntJS "0".toList = some 0
    ∧ ¬ ((finalOffers [oNumFive] (some "0".toList)).length
          ≤ min (Int.toNat 0) [oNumFive].length) :=
  ⟨by decide, by decide⟩

/-- C3 (amended): for every deduplicated pool and every positive integer
value of the max query parameter, the number of offers in the response is
at most the minimum of the requested max and the pool size. -/
theorem C3_limit_bound (pool : List Offer) (s : Str) (k : Int)
    (h1 : parseIntJS s = some k) (h2 : 1 ≤ k) :
    (finalOffers pool (some s)).length ≤ min k.toNat pool.length :=
  le_of_eq (length_finalOffers h1 h2)

/-- Witness for C3 at max = "1" over a two-offer pool. -/
theorem C3_limit_bound_witness :
    (finalOffers [oNumFive, oNumThree] (some "1".toList)).length
      ≤ min (Int.toNat 1) [oNumFive, oNumThree].length :=
  C3_limit_bound [oNumFive, oNumThree] "1".toList 1 (by decide) (by decide)

/-- C4: the final sequence is the ordered pool truncated to the resolved
limit; the limit defaults to 5 when max is absent or does not parse to an
integer (in particular "abc" gives 5); and when the limit is at least the
pool size the full ordered pool is returned. -/
theorem C4_truncation (pool : List Offer) (m : Option Str) :
    finalOffers pool m = sliceJS (rankSort pool) (userLimit m)
    ∧ userLimit none = 5
    ∧ (∀ s : Str, parseIntJS s = none → userLimit (some s) = 5)
    ∧ userLimit (some "abc".toList) = 5
    ∧ ((pool.length : Int) ≤ userLimit m → finalOffers pool m = rankSort pool) := by
  refine ⟨rfl, rfl, ?_, by decide, fun h => finalOffers_all h⟩
  intro s hs
  simp [userLimit, hs]

/-- Witness for C4: an unparsable limit resolves to 5, and a pool smaller
than the limit comes back whole. -/
theorem C4_truncation_witness :
    userLimit (some ['x', 'y']) = 5
    ∧ finalOffers [oNumFive] (some "abc".toList) = rankSort [oNumFive] :=
  ⟨(C4_truncation [] none).2.2.1 ['x', 'y'] (by decide),
   (C4_truncation [oNumFive] (some "abc".toList)).2.2.2.2 (by decide)⟩

/-- C5: deduplication is idempotent. -/
theorem C5_dedup_idempotent (l : List Offer) : dedup (dedup l) = dedup l :=
  dedup_fix (ids_dedup_nodup l)

/-- C6 counterexample: a forwarded header "," is present, so the claim makes
its (empty) first entry the candidate and resolution must end at the
fallback constant; the code instead falls through to the query ip. -/
theorem C6_resolveIp_counterexample :
    resolveIp (some ",".toList) (some "9.9.9.9".toList) none = "9.9.9.9".toList
    ∧ resolveIpClaim (some ",".toList) (some "9.9.9.9".toList) none = fallbackIp
    ∧ "9.9.9.9".toList ≠ fallbackIp :=
  ⟨by decide, by decide, by decide⟩

/-- C6 (amended): the resolver uses the first header comma entry, trimmed,
only when the header is present and that entry is non-empty, otherwise the
query ip when present and non-empty, otherwise the connection address; the
first occurrence of "::ffff:" is removed; the fallback constant replaces an
empty or loopback result; the result is always non-empty. Includes the two
examples of the claim: header "1.2.3.4, 5.6.7.8" resolves to "1.2.3.4", and
connection address "::1" alone resolves to the fallback constant. -/
theorem C6_resolveIp_amended (f q r : Option Str) :
    resolveIp f q r = resolveIpAmendedSpec f q r
    ∧ resolveIp f q r ≠ []
    ∧ resolveIp (some "1.2.3.4, 5.6.7.8".toList) none none = "1.2.3.4".toList
    ∧ resolveIp none none (some "::1".toList) = fallbackIp :=
  ⟨resolveIp_eq_amendedSpec f q r, resolveIp_ne_nil f q r, by decide, by decide⟩

/-- C7: when the upstream body lacks the offers list, the handler replies
with status 200 and the raw body unchanged — the pipeline never alters it
and no error status is produced. -/
theorem C7_passthrough (b : Body) (m : Option Str) (h : b.offersField = none) :
    handle (FetchOutcome.success (some b)) m = (200, RespBody.payload (some b)) := by
  simp [handle, processBody, h]

/-- Witness for C7 at a concrete offers-free body. -/
theorem C7_passthrough_witness :
    handle (FetchOutcome.success (some bodyNoOffers)) none
      = (200, RespBody.payload (some bodyNoOffers)) :=
  C7_passthrough bodyNoOffers none rfl

/-- C8: an error carrying an upstream response is surfaced with the
provider status and body; any other error yields exactly 500 with the
fixed envelope, whose message is exactly "Internal Server Error"; and the
reply never depends on the message or stack of the error. -/
theorem C8_error_mapping (e : CaughtError) (m m2 : Option Str) :
    (∀ st : Nat, ∀ bd : Str, e.response = some (st, bd) →
      handle (FetchOutcome.failure e) m = (st, RespBody.errPayload bd))
    ∧ (e.response = none →
      handle (FetchOutcome.failure e) m
        = (500, RespBody.errorEnvelope false internalErrorMsg))
    ∧ internalErrorMsg = "Internal Server Error".toList
    ∧ (∀ msg stk : Str,
      handle (FetchOutcome.failure ⟨msg, stk, e.response⟩) m2
        = handle (FetchOutcome.failure e) m) := by
  refine ⟨?_, ?_, rfl, ?_⟩
  · intro st bd h
    simp [handle, h]
  · intro h
    simp [handle, h]
  · intro msg stk
    cases h : e.response with
    | none => simp [handle, h]
    | some sb => simp [handle, h]

/-- Witness for C8 at two concrete errors. -/
theorem C8_error_mapping_witness :
    handle (FetchOutcome.failure errWithResp) none
      = (502, RespBody.errPayload "bad gateway".toList)
    ∧ handle (FetchOutcome.failure errNoResp) none
      = (500, RespBody.errorEnvelope false internalErrorMsg) :=
  ⟨(C8_error_mapping errWithResp none none).1 502 "bad gateway".toList rfl,
   (C8_error_mapping errNoResp none none).2.1 rfl⟩

/-- C9: on the success path with an offers list present, every top-level
field other than offers is passed through unchanged, and offers is replaced
by the deduplicated, ranked and limited sequence. -/
theorem C9_frame (b : Body) (raw : List Offer) (m : Option Str)
    (h : b.offersField = some raw) :
    (processBody b m).extra = b.extra
    ∧ (processBody b m).offersField = some (finalOffers (dedup raw) m) := by
  simp [processBody, h]

/-- Witness for C9 at a concrete body. -/
theorem C9_frame_witness :
    (processBody bodyWithOffers none).extra = bodyWithOffers.extra
    ∧ (processBody bodyWithOffers none).offersField
      = some (finalOffers (dedup [oNumFive, oNumThree]) none) :=
  C9_frame bodyWithOffers [oNumFive, oNumThree] none rfl

/-- C10: the max query value "0" resolves to the default limit 5, so a
caller cannot request zero offers and a non-empty pool yields a non-empty
response. -/
theorem C10_zero_max (pool : List Offer) :
    userLimit (some "0".toList) = 5
    ∧ (pool ≠ [] → finalOffers pool (some "0".toList) ≠ []) := by
  refine ⟨by decide, fun h => finalOffers_ne_nil_of_pos h (by decide)⟩

/-- Witness for C10 at a one-offer pool. -/
theorem C10_zero_max_witness :
    userLimit (some "0".toList) = 5
    ∧ finalOffers [oNumFive] (some "0".toList) ≠ [] :=
  ⟨(C10_zero_max []).1, (C10_zero_max [oNumFive]).2 (by decide)⟩

